import Mathlib

set_option maxRecDepth 8000000

/-!
# Verification of the static-directory HTTP handler (`static.js`)

A shallow embedding of the handler in `src/static.js`: the snapshot builder
(`sync`, i.e. walk + compile), the request matcher (`accept`) and the response
generator (`handle`), together with the primitive string/byte operations they
use (SHA-256, base64, and the exact JavaScript string-munging semantics of the
source: first-occurrence `String.replace`, the unescaped `index.html$` regular
expression, `Accept-Encoding` parsing, and URI path truncation).

Bytes are modelled as `List Nat` (each element a byte value). JavaScript
objects used as string maps (header bundles, the path → entry cache) are
modelled as association lists without duplicate keys, with `aset` mirroring
property assignment / `Map.set` and `aassign` mirroring `Object.assign`.
Fallible library calls (filesystem reads, the walk) return `Except`;
the zlib wrappers return `Option` because the source's callbacks resolve
`undefined` on a compression error instead of rejecting.
-/

namespace StaticHandler

/-- Byte strings: each element is a byte value `< 256`. -/
abbrev Bytes := List Nat

/-! ## Association-list maps

JavaScript objects keyed by strings (and the `Map` used for the cache) are
modelled as association lists.  `aset` overwrites an existing key in place or
appends a fresh one (JS property-assignment order semantics); `aget` looks a
key up.  Lists built exclusively with `aset` never contain duplicate keys. -/

/-- Set `k` to `v`, replacing an existing binding in place (JS `obj[k] = v`). -/
def aset {α : Type} : List (String × α) → String → α → List (String × α)
  | [], k, v => [(k, v)]
  | (k', v') :: rest, k, v =>
    if k' = k then (k, v) :: rest else (k', v') :: aset rest k v

/-- Look up the first binding of `k` (JS `obj[k]`, `undefined ↦ none`). -/
def aget {α : Type} : List (String × α) → String → Option α
  | [], _ => none
  | (k', v') :: rest, k => if k' = k then some v' else aget rest k

/-- Mirrors `Object.assign(target, source)`: copy every binding of `source` into
`target`, source bindings winning on conflicting keys.  The JavaScript call
mutates and returns `target`; state updates are made explicit at call sites. -/
def aassign {α : Type} (target source : List (String × α)) : List (String × α) :=
  source.foldl (fun acc kv => aset acc kv.1 kv.2) target

/-- The keys of a map, in order. -/
def akeys {α : Type} (m : List (String × α)) : List String := m.map Prod.fst

/-! ## SHA-256

`crypto.createHash('sha256')` is an external primitive of the source; it is
embedded here in full (FIPS 180-4) so that validator values can be computed
inside the logic.  All words are `Nat`s reduced modulo `2 ^ 32`. -/

def pow32 : Nat := 4294967296

def add32 (a b : Nat) : Nat := (a + b) % pow32

def rotr32 (x n : Nat) : Nat := ((x >>> n) ||| (x <<< (32 - n))) % pow32

def bsig0 (x : Nat) : Nat := rotr32 x 2 ^^^ rotr32 x 13 ^^^ rotr32 x 22
def bsig1 (x : Nat) : Nat := rotr32 x 6 ^^^ rotr32 x 11 ^^^ rotr32 x 25
def ssig0 (x : Nat) : Nat := rotr32 x 7 ^^^ rotr32 x 18 ^^^ (x >>> 3)
def ssig1 (x : Nat) : Nat := rotr32 x 17 ^^^ rotr32 x 19 ^^^ (x >>> 10)

/-- The 64 SHA-256 round constants. -/
def sha256K : List Nat :=
  [1116352408, 1899447441, 3049323471, 3921009573, 961987163, 1508970993,
   2453635748, 2870763221, 3624381080, 310598401, 607225278, 1426881987,
   1925078388, 2162078206, 2614888103, 3248222580, 3835390401, 4022224774,
   264347078, 604807628, 770255983, 1249150122, 1555081692, 1996064986,
   2554220882, 2821834349, 2952996808, 3210313671, 3336571891, 3584528711,
   113926993, 338241895, 666307205, 773529912, 1294757372, 1396182291,
   1695183700, 1986661051, 2177026350, 2456956037, 2730485921, 2820302411,
   3259730800, 3345764771, 3516065817, 3600352804, 4094571909, 275423344,
   430227734, 506948616, 659060556, 883997877, 958139571, 1322822218,
   1537002063, 1747873779, 1955562222, 2024104815, 2227730452, 2361852424,
   2428436474, 2756734187, 3204031479, 3329325298]

/-- The initial hash state. -/
def sha256H0 : List Nat :=
  [1779033703, 3144134277, 1013904242, 2773480762,
   1359893119, 2600822924, 528734635, 1541459225]

/-- Big-endian 8-byte encoding of `n`. -/
def be64 (n : Nat) : List Nat :=
  [(n >>> 56) % 256, (n >>> 48) % 256, (n >>> 40) % 256, (n >>> 32) % 256,
   (n >>> 24) % 256, (n >>> 16) % 256, (n >>> 8) % 256, n % 256]

/-- Big-endian 4-byte encoding of a 32-bit word. -/
def be32 (n : Nat) : List Nat :=
  [(n >>> 24) % 256, (n >>> 16) % 256, (n >>> 8) % 256, n % 256]

/-- SHA-256 message padding: `0x80`, zeros to 56 mod 64, 8-byte bit length. -/
def padMsg (msg : Bytes) : Bytes :=
  let zeros := (119 - msg.length % 64) % 64
  msg ++ [0x80] ++ List.replicate zeros 0 ++ be64 (8 * msg.length)

/-- Split a byte list into 64-byte blocks.  The fuel argument (instantiated
with the list length, an upper bound on the number of blocks) keeps the
recursion structural so that the kernel can evaluate it. -/
def chunks64Aux : Nat → Bytes → List Bytes
  | 0, _ => []
  | _, [] => []
  | fuel + 1, c :: rest => (c :: rest).take 64 :: chunks64Aux fuel ((c :: rest).drop 64)

/-- Split a byte list into 64-byte blocks. -/
def chunks64 (l : Bytes) : List Bytes := chunks64Aux l.length l

/-- Big-endian 32-bit words from bytes. -/
def toWords32 : Bytes → List Nat
  | a :: b :: c :: d :: rest => ((a <<< 24) ||| (b <<< 16) ||| (c <<< 8) ||| d) :: toWords32 rest
  | _ => []

/-- Extend the 16-word message schedule by `fuel` further words. -/
def scheduleAux : Nat → List Nat → List Nat
  | 0, w => w
  | n + 1, w =>
    let t := w.length
    let wi := add32 (add32 (ssig1 (w.getD (t - 2) 0)) (w.getD (t - 7) 0))
                    (add32 (ssig0 (w.getD (t - 15) 0)) (w.getD (t - 16) 0))
    scheduleAux n (w ++ [wi])

/-- One SHA-256 round on the 8-word working state. -/
def sha256Round (st : List Nat) (ki wi : Nat) : List Nat :=
  match st with
  | [a, b, c, d, e, f, g, h] =>
    let s1 := bsig1 e
    let ch := (e &&& f) ^^^ ((e ^^^ 0xffffffff) &&& g)
    let temp1 := add32 h (add32 s1 (add32 ch (add32 ki wi)))
    let s0 := bsig0 a
    let maj := (a &&& b) ^^^ (a &&& c) ^^^ (b &&& c)
    let temp2 := add32 s0 maj
    [add32 temp1 temp2, a, b, c, add32 d temp1, e, f, g]
  | other => other

/-- Compress one 64-byte block into the hash state. -/
def processBlock (h : List Nat) (block : Bytes) : List Nat :=
  let w := scheduleAux 48 (toWords32 block)
  let st := (List.range 64).foldl (fun st i => sha256Round st (sha256K.getD i 0) (w.getD i 0)) h
  List.zipWith add32 h st

/-- SHA-256 digest (32 bytes) of a byte string. -/
def sha256 (msg : Bytes) : Bytes :=
  ((chunks64 (padMsg msg)).foldl processBlock sha256H0).flatMap be32

/-! ## Base64 (as produced by node's `Buffer#toString('base64')`) -/

def b64alphabet : List Char :=
  "ABCDEFGHIJKLMNOPQRSTUVWXYZabcdefghijklmnopqrstuvwxyz0123456789+/".data

def b64char (n : Nat) : Char := b64alphabet.getD n 'A'

/-- Standard base64 with `=` padding. -/
def b64encode : Bytes → List Char
  | [] => []
  | [a] => [b64char (a >>> 2), b64char ((a % 4) <<< 4), '=', '=']
  | [a, b] => [b64char (a >>> 2), b64char (((a % 4) <<< 4) ||| (b >>> 4)),
               b64char ((b % 16) <<< 2), '=']
  | a :: b :: c :: rest =>
    b64char (a >>> 2) :: b64char (((a % 4) <<< 4) ||| (b >>> 4)) ::
    b64char (((b % 16) <<< 2) ||| (c >>> 6)) :: b64char (c % 64) :: b64encode rest

/-- The source's `etag` (static.js:145-148): base64 of the SHA-256 digest, then
`replace(/[/]/g,'-')` (every slash becomes a dash) and `replace(/[=]/g,'')`
(padding removed).  Note the source does not touch `+`. -/
def etag (data : Bytes) : String :=
  ⟨((b64encode (sha256 data)).map (fun c => if c = '/' then '-' else c)).filter (fun c => ¬ c = '=')⟩

/-! ## JavaScript string primitives

The handler relies on a handful of JavaScript string operations; they are
embedded over `List Char` (header values and paths are ASCII, so JS UTF-16
indexing and Lean character indexing agree). -/

/-- JS whitespace test for `String#trim` (the ASCII part, which is all that
can occur in the HTTP headers and paths involved). -/
def isWS (c : Char) : Bool :=
  c = ' ' ∨ c = '\t' ∨ c = '\n' ∨ c = '\r' ∨ c = '\x0b' ∨ c = '\x0c'

/-- Mirrors `String#trim`. -/
def trimChars (l : List Char) : List Char :=
  ((l.dropWhile isWS).reverse.dropWhile isWS).reverse

/-- Mirrors `String#split(',')`: splits on every comma, keeping empty pieces. -/
def splitCommaAux : List Char → List Char → List (List Char)
  | [], acc => [acc.reverse]
  | c :: rest, acc =>
    if c = ',' then acc.reverse :: splitCommaAux rest [] else splitCommaAux rest (c :: acc)

def splitComma (l : List Char) : List (List Char) := splitCommaAux l []

/-- Mirrors `str.replace(/;.*$/g,'')`: everything from the first `;` on is dropped
(header values contain no newlines, so the regex matches to the end). -/
def dropSemiSuffix (l : List Char) : List Char := l.takeWhile (fun c => ¬ c = ';')

/-- First index of character `c` (JS `String#indexOf`, `-1 ↦ none`). -/
def idxOfChar (l : List Char) (c : Char) : Option Nat := l.findIdx? (· = c)

/-- Last index of character `c` (JS `String#lastIndexOf`, `-1 ↦ none`). -/
def lastIdxOfChar (l : List Char) (c : Char) : Option Nat :=
  (l.reverse.findIdx? (· = c)).map (fun i => l.length - 1 - i)

/-- First index at which `pat` occurs as a contiguous substring
(JS `String#indexOf` with a string argument). -/
def subIdx : List Char → List Char → Option Nat
  | [], pat => if pat.isPrefixOf ([] : List Char) then some 0 else none
  | c :: rest, pat =>
    if pat.isPrefixOf (c :: rest) then some 0 else (subIdx rest pat).map (· + 1)

/-- Mirrors `str.replace(pat, rep)` with a *string* pattern: JavaScript replaces only
the first occurrence.  (Only used with the non-empty pattern `"public"`.) -/
def replaceFirst (pat rep : List Char) : List Char → List Char
  | [] => []
  | c :: rest =>
    if pat.isPrefixOf (c :: rest) then rep ++ (c :: rest).drop pat.length
    else c :: replaceFirst pat rep rest

/-- Mirrors `str.replace(/[/]{2,}/,'/')`: the first run of two or more slashes is
collapsed to a single slash; later runs are untouched (no `g` flag). -/
def collapseFirstSlashRun : List Char → List Char
  | [] => []
  | c :: rest =>
    if c = '/' ∧ rest.head? = some '/' then '/' :: rest.dropWhile (· = '/')
    else c :: collapseFirstSlashRun rest

/-- Does the string end in the 10-character pattern of the *unescaped* regular
expression `/index.html$/` (static.js:263), i.e. `index`, any character,
`html`?  For names with extension `html` the wildcard position is always the
dot, so this holds exactly for paths ending in the literal `index.html`. -/
def endsWithIdxPat (l : List Char) : Bool :=
  match l.reverse with
  | c0 :: c1 :: c2 :: c3 :: _ :: c5 :: c6 :: c7 :: c8 :: c9 :: _ =>
    c0 = 'l' ∧ c1 = 'm' ∧ c2 = 't' ∧ c3 = 'h' ∧
    c5 = 'x' ∧ c6 = 'e' ∧ c7 = 'd' ∧ c8 = 'n' ∧ c9 = 'i'
  | _ => false

/-- Mirrors `path.replace(/index.html$/,'')` (static.js:263). -/
def stripIndexHtml (l : List Char) : List Char :=
  if endsWithIdxPat l then l.take (l.length - 10) else l

/-- ASCII `String#toLowerCase` (HTTP method names are ASCII). -/
def lowerChar (c : Char) : Char :=
  if 'A' ≤ c ∧ c ≤ 'Z' then Char.ofNat (c.toNat + 32) else c

def asciiLower (s : String) : String := ⟨s.data.map lowerChar⟩

/-- The source's `uriPath` (static.js:184-195): the request target truncated at the first
`?` or `#`, following the source's `indexOf` branching verbatim. -/
def uriPathChars (uri : List Char) : List Char :=
  match idxOfChar uri '?', idxOfChar uri '#' with
  | none, none => uri
  | none, some i2 => uri.take i2
  | some i1, none => uri.take i1
  | some i1, some i2 => if i2 > i1 then uri.take i1 else uri.take i2

def uriPath (uri : String) : String := ⟨uriPathChars uri.data⟩

/-! ## Data model: headers, type descriptors, entries, snapshots -/

/-- A header bundle (JS object keyed by header name). -/
abbrev Headers := List (String × String)

/-- The source's `defaultHeaders` (static.js:26-35), the module-level mutable bundle. -/
def defaultHeaders : Headers :=
  [("Strict-Transport-Security", "max-age=86400"),
   ("Vary", "Accept-Encoding"),
   ("X-Content-Type-Options", "nosniff"),
   ("X-Frame-Options", "DENY"),
   ("X-XSS-Protection", "1; mode=block"),
   ("Cross-Origin-Resource-Policy", "same-origin"),
   ("Cross-Origin-Embedder-Policy", "require-corp"),
   ("Cross-Security-Policy", "default-src \x27self\x27 \x27unsafe-inline\x27; worker-src \x27self\x27; frame-src \x27none\x27; object-src \x27none\x27; base-uri \x27none\x27; frame-ancestors \x27none")]

/-- A file-type descriptor (`FileTypeConfiguration`). -/
structure FileType where
  headers : Headers
  compress : Bool
deriving DecidableEq

/-- The built-in `allowedTypes` table (static.js:40-90). -/
def allowedTypes : List (String × FileType) :=
  [("js", ⟨[("Content-Type", "application/javascript"), ("Cache-Control", "public,no-cache")], true⟩),
   ("mjs", ⟨[("Content-Type", "application/javascript"), ("Cache-Control", "public,no-cache")], true⟩),
   ("css", ⟨[("Content-Type", "text/css"), ("Cache-Control", "public,no-cache")], true⟩),
   ("map", ⟨[("Content-Type", "application/json"), ("Cache-Control", "public,no-cache")], true⟩),
   ("htm", ⟨[("Content-Type", "text/html"), ("Cache-Control", "public,no-cache")], true⟩),
   ("html", ⟨[("Content-Type", "text/html"), ("Cache-Control", "public,no-cache")], true⟩),
   ("txt", ⟨[("Content-Type", "text/plain"), ("Cache-Control", "public,max-age=86400,must-revalidate")], true⟩),
   ("csv", ⟨[("Content-Type", "text/csv"), ("Cache-Control", "public,max-age=86400,must-revalidate")], true⟩),
   ("md", ⟨[("Content-Type", "text/markdown"), ("Cache-Control", "public,max-age=86400,must-revalidate")], true⟩),
   ("adoc", ⟨[("Content-Type", "text/asciidoc"), ("Cache-Control", "public,max-age=86400,must-revalidate")], true⟩),
   ("xml", ⟨[("Content-Type", "application/xml"), ("Cache-Control", "public,max-age=86400,must-revalidate")], true⟩),
   ("dtd", ⟨[("Content-Type", "application/xml-dtd"), ("Cache-Control", "public,max-age=86400,must-revalidate")], true⟩),
   ("xsd", ⟨[("Content-Type", "application/xml"), ("Cache-Control", "public,max-age=86400,must-revalidate")], true⟩),
   ("atom", ⟨[("Content-Type", "application/atom+xml"), ("Cache-Control", "public,max-age=3600,must-revalidate")], true⟩),
   ("gpx", ⟨[("Content-Type", "application/gpx+xml"), ("Cache-Control", "public,max-age=86400,must-revalidate")], true⟩),
   ("json", ⟨[("Content-Type", "application/json"), ("Cache-Control", "public,max-age=3600,must-revalidate")], true⟩),
   ("jsonld", ⟨[("Content-Type", "application/ld+json"), ("Cache-Control", "public,max-age=3600,must-revalidate")], true⟩),
   ("geojson", ⟨[("Content-Type", "application/geo+json"), ("Cache-Control", "public,max-age=86400,must-revalidate")], true⟩),
   ("topojson", ⟨[("Content-Type", "application/json"), ("Cache-Control", "public,max-age=86400,must-revalidate")], true⟩),
   ("yml", ⟨[("Content-Type", "text/yaml"), ("Cache-Control", "public,max-age=3600,must-revalidate")], true⟩),
   ("yaml", ⟨[("Content-Type", "text/yaml"), ("Cache-Control", "public,max-age=3600,must-revalidate")], true⟩),
   ("otf", ⟨[("Content-Type", "font/otf"), ("Cache-Control", "public,immutable")], false⟩),
   ("ttf", ⟨[("Content-Type", "font/ttf"), ("Cache-Control", "public,immutable")], false⟩),
   ("woff", ⟨[("Content-Type", "font/woff"), ("Cache-Control", "public,immutable")], false⟩),
   ("woff2", ⟨[("Content-Type", "font/woff2"), ("Cache-Control", "public,immutable")], false⟩),
   ("jpg", ⟨[("Content-Type", "image/jpeg"), ("Cache-Control", "public,immutable")], false⟩),
   ("png", ⟨[("Content-Type", "image/png"), ("Cache-Control", "public,immutable")], false⟩),
   ("tif", ⟨[("Content-Type", "image/tiff"), ("Cache-Control", "public,immutable")], false⟩),
   ("tiff", ⟨[("Content-Type", "image/tiff"), ("Cache-Control", "public,immutable")], false⟩),
   ("svg", ⟨[("Content-Type", "image/svg+xml"), ("Cache-Control", "public,immutable")], true⟩),
   ("ico", ⟨[("Content-Type", "image/x-icon"), ("Cache-Control", "public,immutable")], false⟩),
   ("webp", ⟨[("Content-Type", "image/webp"), ("Cache-Control", "public,immutable")], false⟩),
   ("mp4", ⟨[("Content-Type", "video/mp4"), ("Cache-Control", "public,immutable")], false⟩),
   ("webm", ⟨[("Content-Type", "video/webm"), ("Cache-Control", "public,immutable")], false⟩),
   ("zip", ⟨[("Content-Type", "application/zip"), ("Cache-Control", "public,no-cache")], false⟩),
   ("epub", ⟨[("Content-Type", "application/epub+zip"), ("Cache-Control", "public,no-cache")], false⟩),
   ("pdf", ⟨[("Content-Type", "application/pdf"), ("Cache-Control", "public,no-cache")], true⟩),
   ("wav", ⟨[("Content-Type", "audio/x-wav"), ("Cache-Control", "public,immutable")], true⟩),
   ("mp3", ⟨[("Content-Type", "audio/mp3"), ("Cache-Control", "public,immutable")], false⟩),
   ("aac", ⟨[("Content-Type", "audio/aac"), ("Cache-Control", "public,immutable")], false⟩),
   ("wasm", ⟨[("Content-Type", "application/wasm"), ("Cache-Control", "public,max-age=3600,must-revalidate")], true⟩),
   ("wat", ⟨[("Content-Type", "text/plain"), ("Cache-Control", "public,max-age=3600,must-revalidate")], true⟩),
   ("sig", ⟨[("Content-Type", "application/pgp-signature"), ("Cache-Control", "public,no-cache")], false⟩),
   ("bin", ⟨[("Content-Type", "application/octet-stream"), ("Cache-Control", "public,max-age=86400,must-revalidate")], true⟩),
   ("glsl", ⟨[("Content-Type", "text/plain"), ("Cache-Control", "public,max-age=3600,must-revalidate")], true⟩),
   ("gltf", ⟨[("Content-Type", "model/gltf+json"), ("Cache-Control", "public,max-age=86400,must-revalidate")], true⟩),
   ("glb", ⟨[("Content-Type", "model/gltf-binary"), ("Cache-Control", "public,max-age=86400,must-revalidate")], true⟩),
   ("pbf", ⟨[("Content-Type", "application/x-protobuf"), ("Cache-Control", "public,max-age=86400,must-revalidate")], false⟩),
   ("manifest", ⟨[("Content-Type", "application/manifest+json"), ("Cache-Control", "public,max-age=3600,must-revalidate")], true⟩)]

/-- The source's `isText` (static.js:132-137): decides brotli text mode from Content-Type.
(The source would throw on a descriptor without a Content-Type; every
descriptor carries one, so the missing case defaults to the empty string.) -/
def isText (h : Headers) : Bool :=
  let ct := ((aget h "Content-Type").getD "").data
  let gtZero : Option Nat → Bool := fun r => match r with | some i => i > 0 | none => false
  decide (subIdx ct ("text/".data) = some 0) ∨
  gtZero (subIdx ct ("json".data)) ∨ gtZero (subIdx ct ("xml".data))

/-- The representation set of a content entry (`Data`): `identity` is always
present; `gzip`/`br` are `none` when the property is absent (non-compressible
type) *or* when the zlib callback reported an error, since the source's
wrappers resolve `undefined` in that case (static.js:98-124). -/
structure RepData where
  identity : Bytes
  gzip : Option Bytes
  br : Option Bytes
deriving DecidableEq

/-- A cache entry: a redirect entry has `data = none` (only a `Location`
header); a content entry has `data = some _`. -/
structure Entry where
  headers : Headers
  data : Option RepData
deriving DecidableEq

/-- The active snapshot: the `cache` map from public path to entry. -/
abbrev Snapshot := List (String × Entry)

deriving instance DecidableEq for Except

/-- The supported encodings (`Encodings`, static.js:156-160). -/
inductive Encoding where
  | identity
  | gzip
  | brotli
deriving DecidableEq

/-- The string value of each `Encodings` member. -/
def encodingName : Encoding → String
  | .identity => "identity"
  | .gzip => "gzip"
  | .brotli => "br"

/-- Mirrors `found.data[encoding]` (static.js:330-332). -/
def dataGet (d : RepData) : Encoding → Option Bytes
  | .identity => some d.identity
  | .gzip => d.gzip
  | .brotli => d.br

/-- The source's `bestSupportedEncoding` (static.js:168-176).  The argument is the
request's `accept-encoding` header (node lowercases incoming header names),
`none` when absent. -/
def bestSupportedEncoding (ae : Option String) : Encoding :=
  let s := trimChars (ae.getD "").data
  if s = [] then .identity
  else if s = ['*'] then .brotli
  else
    let list := (splitComma s).map (fun it => trimChars (dropSemiSuffix it))
    if list.contains ("br".data) then .brotli
    else if list.contains ("gzip".data) then .gzip
    else .identity

/-! ## Configuration, environment and the snapshot builder (`sync`) -/

/-- Construction options after defaulting (static.js:216-225).  The source
field `options.prefix` is called `pfx` here because its name is a Lean
keyword. -/
structure Config where
  root : String
  pfx : String
  disallowSharedCache : Bool
  types : List (String × FileType)

/-- The trailing-slash normalization applied to `options.prefix`
(static.js:222-223). -/
def normPfx (p : String) : String :=
  if ¬ p = "" ∧ p.data.getLast? = some '/' then ⟨p.data.dropLast⟩ else p

/-- The environment of primitive library calls used during a rebuild.
`readFile` can fail (a rejected promise aborts the rebuild).  The zlib
wrappers `gz`/`br` (static.js:98-124) *resolve* with `undefined` when the
callback reports an error, so they are total functions into `Option`. -/
structure Env where
  readFile : String → Except String Bytes
  gzipC : Bytes → Option Bytes
  brotC : Bytes → Bool → Option Bytes

/-- An on-disk tree, used to drive the directory walk. -/
inductive FS where
  | file : FS
  | dir : List (String × FS) → FS

/-- A walk candidate: a directory, or a recognized file with its descriptor.
Hidden and unrecognized entries are dropped by the walk itself. -/
inductive Item where
  | dir : String → Item
  | file : String → FileType → Item
deriving DecidableEq

/-- The `start`/`end`/`ext` computation of the walk (static.js:234-237). -/
def extOf (f : String) : String :=
  let l := f.data
  let start := match lastIdxOfChar l '/' with | some i => i + 1 | none => 0
  let e := match lastIdxOfChar l '.' with | some i => i + 1 | none => l.length
  if e < start then "" else ⟨l.drop e⟩

/-- Mirrors `f[start]==='.'` (static.js:236): hidden names are skipped. -/
def isHiddenName (f : String) : Bool :=
  let start := match lastIdxOfChar f.data '/' with | some i => i + 1 | none => 0
  (f.data.drop start).head? = some '.'

/-- The recursive directory walk (static.js:230-243), producing the flattened
candidate list in depth-first order.  The recursion of the source is
unbounded; the fuel argument (instantiated with any bound on the tree depth)
keeps this embedding structurally recursive so the kernel can evaluate it. -/
def walkFuel (types : List (String × FileType)) : Nat → String → List (String × FS) → List Item
  | 0, _, _ => []
  | fuel + 1, dirPath, entries =>
    entries.flatMap (fun fe =>
      let path := dirPath ++ "/" ++ fe.1
      if isHiddenName fe.1 then []
      else match fe.2 with
        | .dir sub => Item.dir path :: walkFuel types fuel path sub
        | .file =>
          match aget types (extOf fe.1) with
          | some t => [Item.file path t]
          | none => [])

/-- The public path of a candidate: configured path prefix plus the path with
the root directory stripped (static.js:247, 262). -/
def publicPath (cfg : Config) (path : String) : String :=
  normPfx cfg.pfx ++ (⟨path.data.drop cfg.root.length⟩ : String)

/-- Compilation of a directory candidate (static.js:246-250): a redirect
entry whose `Location` is the public path plus a trailing slash, with the
first run of duplicate slashes collapsed. -/
def compileDir (cfg : Config) (path : String) : String × Entry :=
  let p := publicPath cfg path
  let location : String := ⟨collapseFirstSlashRun (p ++ "/").data⟩
  (p, ⟨[("Location", location)], none⟩)

/-- Compilation of a file candidate (static.js:251-266): read the bytes,
build `{ETag} ← type.headers` (type headers win), optionally rewrite the
first `public` of `Cache-Control` to `private`, build the representation set,
and key the entry by the public path with a trailing `index.html` (as matched
by the unescaped regex) stripped. -/
def compileFile (cfg : Config) (env : Env) (path : String) (t : FileType) :
    Except String (String × Entry) :=
  match env.readFile path with
  | .error e => .error e
  | .ok uncompressed =>
    let headers := aassign [("ETag", etag uncompressed)] t.headers
    let headers :=
      match aget headers "Cache-Control" with
      | some cc =>
        if cfg.disallowSharedCache ∧ ¬ cc = "" then
          aset headers "Cache-Control" ⟨replaceFirst ("public".data) ("private".data) cc.data⟩
        else headers
      | none => headers
    let data : RepData :=
      if t.compress then
        ⟨uncompressed, env.gzipC uncompressed, env.brotC uncompressed (isText t.headers)⟩
      else ⟨uncompressed, none, none⟩
    .ok (⟨stripIndexHtml (publicPath cfg path).data⟩, ⟨headers, some data⟩)

/-- One `updated.set` step of the rebuild loop (static.js:245-267). -/
def syncStep (cfg : Config) (env : Env) (acc : Snapshot) : Item → Except String Snapshot
  | .dir p => .ok (aset acc (compileDir cfg p).1 (compileDir cfg p).2)
  | .file p t =>
    match compileFile cfg env p t with
    | .error e => .error e
    | .ok ke => .ok (aset acc ke.1 ke.2)

/-- The whole rebuild (static.js:228-276): the candidate list is the root
directory followed by the walk result; every candidate is compiled into the
fresh `updated` map.  Any rejected promise (walk failure, file-read failure)
rejects the whole rebuild; the logging at static.js:268-274 is omitted. -/
def syncBuild (cfg : Config) (env : Env) (walkRes : Except String (List Item)) :
    Except String Snapshot :=
  match walkRes with
  | .error e => .error e
  | .ok items => (Item.dir cfg.root :: items).foldlM (syncStep cfg env) []

/-- The assignment `cache=updated` runs only after the whole build succeeded; on failure the
previously active snapshot stays in place (static.js:275, 296-304). -/
def afterSync (active : Snapshot) (r : Except String Snapshot) : Snapshot :=
  match r with
  | .ok s => s
  | .error _ => active

/-! ## Request matching and response generation -/

/-- The request data consumed by the handler: the raw target, the method, and
the two request headers it reads (node lowercases incoming header names;
`none` models an absent header). -/
structure Request where
  url : String
  method : String
  ifNoneMatch : Option String
  acceptEncoding : Option String
deriving DecidableEq

/-- A written response: status, the headers passed to `writeHead`, and the
body bytes (empty for `end()` with no argument). -/
structure Response where
  status : Nat
  headers : Headers
  body : Bytes
deriving DecidableEq

/-- The source's `localAddresses` (static.js:217). -/
def localAddresses : List String := ["127.0.0.1", "::1"]

/-- The source's `accept` (static.js:279-291): look the normalized path up in the active
snapshot; on a miss, the *raw* `request.url` is compared against
`` `${prefix}/sync` `` and the remote address against the loopback set.
`some (some e)` is a resource match, `some none` the rebuild match (`found`
null), `none` no match.  (The HTTP/2 per-session cache pinning at
static.js:283-285 is the plain `cache` for HTTP/1 requests, which is what is
modelled.) -/
def accept (cfg : Config) (snap : Snapshot) (url addr : String) : Option (Option Entry) :=
  let path := uriPath url
  match aget snap path with
  | some found => some (some found)
  | none =>
    if url = normPfx cfg.pfx ++ "/sync" ∧ localAddresses.contains addr then some none
    else none

/-- The conditional-request test (static.js:320-321): the `if-none-match`
value is truthy and strictly equal to the entry's `ETag`. -/
def condMatch (found : Entry) (req : Request) : Bool :=
  match req.ifNoneMatch with
  | none => false
  | some et => ¬ et = "" ∧ aget found.headers "ETag" = some et

/-- The source's `handle` on a resource match (static.js:308-344).  `st` is the current
value of the module-level `defaultHeaders` object; because line 314 is
`Object.assign(defaultHeaders, found.headers)`, the merged bundle *is* that
object, so the function returns the written response together with the new
bundle state.  The result is `none` exactly when the source would throw a
`TypeError` (`found.data[encoding]` absent at static.js:330).  The rebuild
branch (static.js:294-307) concerns `sync` and is covered by `syncBuild` /
`afterSync`. -/
def handle (st : Headers) (found : Entry) (req : Request) : Option (Response × Headers) :=
  let m := asciiLower req.method
  if ¬ m = "head" ∧ ¬ m = "get" then some (⟨405, [], []⟩, st)
  else
    let headers := aassign st found.headers
    match found.data with
    | none => some (⟨301, headers, []⟩, headers)
    | some d =>
      if condMatch found req then some (⟨304, headers, []⟩, headers)
      else
        if d.br.isSome ∨ d.gzip.isSome then
          let enc := bestSupportedEncoding req.acceptEncoding
          if ¬ enc = Encoding.identity then
            match dataGet d enc with
            | none => none
            | some bytes =>
              let h2 := aset (aset headers "Content-Encoding" (encodingName enc))
                             "Content-Length" (Nat.repr bytes.length)
              some (⟨200, h2, if m = "get" then bytes else []⟩, h2)
          else
            let h2 := aset headers "Content-Length" (Nat.repr d.identity.length)
            some (⟨200, h2, if m = "get" then d.identity else []⟩, h2)
        else
          let h2 := aset headers "Content-Length" (Nat.repr d.identity.length)
          some (⟨200, h2, if m = "get" then d.identity else []⟩, h2)

/-! ## Lemmas about association-list maps -/

theorem aget_aset_self {α : Type} (m : List (String × α)) (k : String) (v : α) :
    aget (aset m k v) k = some v := by
  induction m with
  | nil => simp [aset, aget]
  | cons kv rest ih =>
    by_cases h : kv.1 = k

    · simp [aset, aget, h]
    · simp [aset, aget, h, ih]

theorem aget_aset_ne {α : Type} (m : List (String × α)) (k k' : String) (v : α)
    (h : ¬ k' = k) : aget (aset m k v) k' = aget m k' := by
  have h' : ¬ k = k' := fun hn => h hn.symm
  induction m with
  | nil => simp [aset, aget, h']
  | cons kv rest ih =>
    by_cases hk : kv.1 = k
    · simp [aset, aget, hk, h']
    · by_cases hk' : kv.1 = k' <;> simp [aset, aget, hk, hk', h, h', ih]

theorem aget_aset_cases {α : Type} (m : List (String × α)) (k p : String) (v e : α)
    (h : aget (aset m k v) p = some e) : (p = k ∧ e = v) ∨ aget m p = some e := by
  by_cases hp : p = k
  · subst hp
    rw [aget_aset_self] at h
    exact Or.inl ⟨rfl, (Option.some_injective _ h).symm⟩
  · rw [aget_aset_ne m k p v hp] at h
    exact Or.inr h

theorem aget_none_iff {α : Type} (m : List (String × α)) (k : String) :
    aget m k = none ↔ ¬ k ∈ akeys m := by
  induction m with
  | nil => simp [aget, akeys]
  | cons kv rest ih =>
    by_cases h : kv.1 = k
    · simp [aget, akeys, h]
    · have h' : ¬ k = kv.1 := fun hn => h hn.symm
      simp [aget, akeys, h, h', ih]

theorem aget_aassign_of_none {α : Type} (t s : List (String × α)) (k : String)
    (h : aget s k = none) : aget (aassign t s) k = aget t k := by
  induction s generalizing t with
  | nil => simp [aassign]
  | cons kv rest ih =>
    have hne : ¬ kv.1 = k := by
      intro he
      simp [aget, he] at h
    have hrest : aget rest k = none := by
      simpa [aget, hne] using h
    have : aassign t (kv :: rest) = aassign (aset t kv.1 kv.2) rest := by
      simp [aassign]
    rw [this, ih _ hrest, aget_aset_ne _ _ _ _ (fun he => hne he.symm)]

theorem aget_aassign_of_some {α : Type} (s : List (String × α)) (k : String) (v : α)
    (hwf : (akeys s).Nodup) (h : aget s k = some v) :
    ∀ t, aget (aassign t s) k = some v := by
  induction s with
  | nil => simp [aget] at h
  | cons kv rest ih =>
    intro t
    have hstep : aassign t (kv :: rest) = aassign (aset t kv.1 kv.2) rest := by
      simp [aassign]
    have hpair := List.nodup_cons.mp (show (kv.1 :: akeys rest).Nodup from hwf)
    by_cases he : kv.1 = k
    · have hv : kv.2 = v := by
        have := h
        simp [aget, he] at this
        exact this
      have hnotin : ¬ k ∈ akeys rest := he ▸ hpair.1
      have hrest : aget rest k = none := (aget_none_iff rest k).mpr hnotin
      rw [hstep, aget_aassign_of_none _ _ _ hrest, he, hv, aget_aset_self]
    · have hrest : aget rest k = some v := by
        have := h
        simp [aget, he] at this
        exact this
      rw [hstep]
      exact ih hpair.2 hrest _

/-! ## A shared concrete instance

A handler over the root `www` containing `a.txt`, `1px.jpg` and a directory
`dir1` holding `index.html` and `myindex.html`, with a benign compression
environment.  Used to evaluate the code at concrete inputs. -/

def exCfg : Config := ⟨"www", "", false, allowedTypes⟩

def exTree : List (String × FS) :=
  [("a.txt", .file), ("1px.jpg", .file),
   ("dir1", .dir [("index.html", .file), ("myindex.html", .file)])]

def exEnv : Env where
  readFile := fun p =>
    if p = "www/a.txt" then .ok [104, 105]
    else if p = "www/1px.jpg" then .ok [255]
    else if p = "www/dir1/index.html" then .ok [97]
    else if p = "www/dir1/myindex.html" then .ok [98]
    else .error "ENOENT"
  gzipC := fun _ => some [7]
  brotC := fun _ _ => some [8, 9]

def exItems : List Item := walkFuel allowedTypes 9 "www" exTree

def snapEx : Snapshot := afterSync [] (syncBuild exCfg exEnv (.ok exItems))

def emptyEntry : Entry := ⟨[], none⟩

/-! ## C8 — the validator encoding -/

/-- Modelled from the spec's words, for comparison with the source's `etag`:
"the URL-safe, unpadded base64 encoding of the SHA-256 digest", i.e. the
RFC 4648 `base64url` alphabet (`+ ↦ -`, `/ ↦ _`) without padding. -/
def urlsafeValidator (data : Bytes) : String :=
  ⟨((b64encode (sha256 data)).map
      (fun c => if c = '+' then '-' else if c = '/' then '_' else c)).filter
    (fun c => ¬ c = '=')⟩

/-- C8, counterexample: the validator of the empty byte string contains the
character `+` (the source only rewrites `/` and `=`), and differs from the
URL-safe base64 encoding of the digest that the claim describes. -/
theorem c8_etag_counterexample :
    '+' ∈ (etag []).data ∧ ¬ etag [] = urlsafeValidator [] := by
  constructor
  · decide
  · decide

/-- C8, amended: the validator is the standard base64 encoding of the SHA-256
digest with every `/` replaced by `-` and every `=` removed; consequently it
never contains `/` or `=` (every byte string, hence determinism: the token is
a function of the bytes alone), but it may contain `+`. -/
theorem c8_etag_amended :
    ∀ data : Bytes,
      etag data =
        ⟨((b64encode (sha256 data)).map (fun c => if c = '/' then '-' else c)).filter
          (fun c => ¬ c = '=')⟩ ∧
      ¬ '/' ∈ (etag data).data ∧ ¬ '=' ∈ (etag data).data := by
  intro data
  refine ⟨rfl, ?_, ?_⟩
  · intro h
    have h' : '/' ∈ ((b64encode (sha256 data)).map
        (fun c => if c = '/' then '-' else c)) := (List.mem_filter.mp h).1
    obtain ⟨c, _, hceq⟩ := List.mem_map.mp h'
    by_cases hc : c = '/'
    · rw [if_pos hc] at hceq
      exact absurd hceq (by decide)
    · rw [if_neg hc] at hceq
      exact hc hceq
  · intro h
    have h' := (List.mem_filter.mp h).2
    simp at h'

/-! ## C9 — `index.html` stripping -/

/-- C9, counterexample: in the concrete snapshot, the file
`www/dir1/myindex.html` is *not* mapped at `/dir1/myindex.html`; its key had
the trailing `index.html` stripped, leaving the content entry at `/dir1/my`.
The claim states that only a file named exactly `index.html` is stripped and
that `myindex.html` is mapped at its full public path. -/
theorem c9_index_strip_counterexample :
    aget snapEx "/dir1/myindex.html" = none ∧
    (aget snapEx "/dir1/my").map (fun e => (e.data.map RepData.identity,
      aget e.headers "Content-Type")) = some (some [98], some "text/html") := by
  constructor
  · decide
  · decide

/-- C9, amended: the compiler strips the final ten characters of a file
candidate's public path whenever they match the unescaped pattern
`index.html` (`index`, any character, `html`), even when preceded by other
name characters — so any path of the form `a ++ "index.html"` is keyed at
`a` (`/dir1/myindex.html ↦ /dir1/my`), while paths not ending in the pattern
are kept whole; a directory with an `index.html` file still yields the
content entry at the slash-suffixed path and a separate redirect entry at the
bare directory path. -/
theorem c9_index_strip_amended :
    (∀ a : List Char, stripIndexHtml (a ++ ("index.html".data)) = a) ∧
    (∀ s : List Char, endsWithIdxPat s = false → stripIndexHtml s = s) ∧
    (aget snapEx "/dir1/").map (fun e => (e.data.map RepData.identity,
      aget e.headers "Content-Type")) = some (some [97], some "text/html") ∧
    (aget snapEx "/dir1").map (fun e => (e.data.isSome, aget e.headers "Location")) =
      some (false, some "/dir1/") := by
  refine ⟨?_, ?_, by decide, by decide⟩
  · intro a
    have hpat : endsWithIdxPat (a ++ ("index.html".data)) = true := by
      unfold endsWithIdxPat
      rw [List.reverse_append]
      rfl
    have hlen : (a ++ ("index.html".data)).length - 10 = a.length := by
      rw [List.length_append]
      rfl
    rw [stripIndexHtml, if_pos hpat, hlen, List.take_left]
  · intro s hs
    rw [stripIndexHtml, if_neg (by simp [hs])]

/-- C9, witness: the amended strip characterization at concrete inputs. -/
theorem c9_index_strip_witness :
    stripIndexHtml ("/dir1/my".data ++ ("index.html".data)) = "/dir1/my".data ∧
    stripIndexHtml ("/index.htm".data) = "/index.htm".data :=
  ⟨c9_index_strip_amended.1 _, c9_index_strip_amended.2.1 _ (by decide)⟩

/-! ## C4 — the shared-cache downgrade -/

def pubChars : List Char := "public".data
def privChars : List Char := "private".data

/-- The pattern `public` has no non-trivial border: no proper rotation aligns, so an
occurrence cannot straddle the boundary of an explicit `l ++ public` split. -/
theorem pub_not_prefix_append {l : List Char} (r : List Char)
    (hinf : ¬ pubChars <:+: l) (hne : ¬ l = []) :
    ¬ pubChars <+: (l ++ pubChars ++ r) := by
  intro hpre
  have hp6 : pubChars.length = 6 := by decide
  have h6 : (l ++ pubChars ++ r).take 6 = pubChars := by
    obtain ⟨t, ht⟩ := hpre
    rw [← ht]
    exact List.take_left' hp6
  by_cases hk : 6 ≤ l.length
  · apply hinf
    rw [List.append_assoc, List.take_append_of_le_length hk] at h6
    exact List.IsPrefix.isInfix (h6 ▸ List.take_prefix 6 l)
  · push_neg at hk
    have hk1 : 1 ≤ l.length := by
      cases l with
      | nil => exact absurd rfl hne
      | cons c cs => simp
    -- `take 6 (l ++ public ++ r) = l ++ take (6 - |l|) public`
    have hsplit : (l ++ pubChars ++ r).take 6 = l ++ pubChars.take (6 - l.length) := by
      rw [List.append_assoc, List.take_append_eq_append_take,
        List.take_of_length_le (le_of_lt hk), List.take_append_of_le_length (by rw [hp6]; omega)]
    rw [hsplit] at h6
    -- dropping `|l|` characters: `take (6 - |l|) public = drop |l| public`
    have hdrop : pubChars.take (6 - l.length) = pubChars.drop l.length := by
      have := congrArg (List.drop l.length) h6
      rwa [List.drop_left] at this
    have hcases : l.length = 1 ∨ l.length = 2 ∨ l.length = 3 ∨ l.length = 4 ∨ l.length = 5 := by
      omega
    rcases hcases with h | h | h | h | h <;> rw [h] at hdrop <;> exact absurd hdrop (by decide)

/-- If `public` occurs nowhere in `s`, `replace` leaves `s` unchanged. -/
theorem replaceFirst_no_occurrence :
    ∀ s : List Char, ¬ pubChars <:+: s → replaceFirst pubChars privChars s = s := by
  intro s
  induction s with
  | nil => intro _; rfl
  | cons c rest ih =>
    intro hinf
    rw [replaceFirst, if_neg, ih (fun h => hinf (List.infix_cons h))]
    intro hb
    exact hinf (List.IsPrefix.isInfix ( List.isPrefixOf_iff_prefix.mp hb))

/-- JavaScript `replace` rewrites exactly the first occurrence of `public`, leaving the
remainder — later occurrences included — unchanged. -/
theorem replaceFirst_first_occurrence (r : List Char) :
    ∀ l : List Char, ¬ pubChars <:+: l →
      replaceFirst pubChars privChars (l ++ pubChars ++ r) = l ++ privChars ++ r := by
  intro l
  induction l with
  | nil =>
    intro _
    have hcons : ([] : List Char) ++ pubChars ++ r = 'p' :: ("ublic".data ++ r) := rfl
    have hpre : pubChars.isPrefixOf ('p' :: ("ublic".data ++ r)) = true :=
      List.isPrefixOf_iff_prefix.mpr (List.prefix_append pubChars r)
    rw [hcons]
    simp only [replaceFirst]
    rw [if_pos hpre, List.nil_append]
    rfl
  | cons c rest ih =>
    intro hinf
    have hne : ¬ (c :: rest) = [] := by simp
    have hnot : ¬ pubChars.isPrefixOf (c :: rest ++ pubChars ++ r) = true := by
      intro hb
      exact pub_not_prefix_append r hinf hne
        ( List.isPrefixOf_iff_prefix.mp (by simpa using hb))
    have hstep : (c :: rest) ++ pubChars ++ r = c :: (rest ++ pubChars ++ r) := by
      simp
    rw [hstep]
    simp only [replaceFirst]
    rw [if_neg (by simpa using hnot), ih (fun h => hinf (List.infix_cons h))]
    simp

/-- The custom non-compressible type of the counterexample, with two `public`
tokens in its Cache-Control (as a custom `allowedFileTypes` entry may have). -/
def abcType : FileType :=
  ⟨[("Content-Type", "text/plain"), ("Cache-Control", "public,public")], false⟩

def cfgShared : Config := ⟨"www", "", true, [("abc", abcType)]⟩

/-- C4, counterexample: with `disallowSharedCache`, a Cache-Control value
`public,public` compiles to `private,public` — JavaScript's
`String#replace` with a string pattern rewrites only the *first* occurrence,
not every occurrence as the claim states. -/
theorem c4_shared_cache_counterexample :
    ((compileFile cfgShared exEnv "www/a.txt" abcType).toOption.map
      (fun ke => aget ke.2.headers "Cache-Control")) = some (some "private,public") ∧
    ¬ ((compileFile cfgShared exEnv "www/a.txt" abcType).toOption.map
      (fun ke => aget ke.2.headers "Cache-Control")) = some (some "private,private") := by
  constructor
  · decide
  · decide

/-- C4, amended: with `disallowSharedCache`, the assembled Cache-Control is
the original value with only its *first* occurrence of the substring
`public` rewritten to `private`; everything before and after that occurrence
— including further occurrences of `public` — is unchanged, and a value
without any occurrence is untouched. -/
theorem c4_shared_cache_amended :
    (∀ cfg env p t k e cc, cfg.disallowSharedCache = true →
      (akeys t.headers).Nodup →
      aget t.headers "Cache-Control" = some cc → ¬ cc = "" →
      compileFile cfg env p t = .ok (k, e) →
      aget e.headers "Cache-Control" =
        some ⟨replaceFirst pubChars privChars cc.data⟩) ∧
    (∀ l r : List Char, ¬ pubChars <:+: l →
      replaceFirst pubChars privChars (l ++ pubChars ++ r) = l ++ privChars ++ r) ∧
    (∀ s : List Char, ¬ pubChars <:+: s → replaceFirst pubChars privChars s = s) := by
  refine ⟨?_, fun l r h => replaceFirst_first_occurrence r l h, replaceFirst_no_occurrence⟩
  intro cfg env p t k e cc hdis hwf hcc hne hok
  cases hrf : env.readFile p with
  | error err =>
    simp only [compileFile, hrf] at hok
    exact Except.noConfusion hok
  | ok u =>
    have hget : aget (aassign [("ETag", etag u)] t.headers) "Cache-Control" = some cc :=
      aget_aassign_of_some t.headers "Cache-Control" cc hwf hcc _
    simp only [compileFile, hrf, hget, hdis, hne, not_false_eq_true, and_self, if_true,
      Except.ok.injEq, Prod.mk.injEq] at hok
    rw [← hok.2, aget_aset_self]
    rfl

/-- C4, witness: the amended rewrite at a concrete compile. -/
theorem c4_shared_cache_witness :
    aget ((compileFile cfgShared exEnv "www/a.txt" abcType).toOption.map
        (fun ke => ke.2.headers) |>.getD []) "Cache-Control" =
      some ⟨replaceFirst pubChars privChars ("public,public".data)⟩ := by
  have h := c4_shared_cache_amended.1 cfgShared exEnv "www/a.txt" abcType
    ((compileFile cfgShared exEnv "www/a.txt" abcType).toOption.map
      (fun ke => ke.1) |>.getD "")
    ((compileFile cfgShared exEnv "www/a.txt" abcType).toOption.map
      (fun ke => ke.2) |>.getD emptyEntry)
    "public,public" rfl (by decide) (by decide) (by decide) (by decide)
  exact h

/-! ## C3 — the rebuild-trigger match -/

/-- C3, counterexample: a loopback request to `/sync?x=1` misses the (empty)
snapshot and its *normalized* path equals the sync-trigger path, yet `accept`
returns no match — the source compares the raw `request.url` (static.js:288),
not the normalized path, so targets carrying a query or fragment after the
sync path never trigger a rebuild, contradicting the claim. -/
theorem c3_sync_trigger_counterexample :
    uriPath "/sync?x=1" = normPfx exCfg.pfx ++ "/sync" ∧
    localAddresses.contains "127.0.0.1" = true ∧
    aget ([] : Snapshot) (uriPath "/sync?x=1") = none ∧
    accept exCfg [] "/sync?x=1" "127.0.0.1" = none := by
  refine ⟨by decide, by decide, by decide, by decide⟩

/-- C3, amended: on a snapshot miss, `accept` returns the rebuild match if
and only if the *raw* request target (query/fragment included) equals
`<prefix>/sync` and the caller's address is `127.0.0.1` or `::1`; otherwise
it returns no match (never a resource match). -/
theorem c3_sync_trigger_amended (cfg : Config) (snap : Snapshot) (url addr : String)
    (hmiss : aget snap (uriPath url) = none) :
    (accept cfg snap url addr = some none ↔
      (url = normPfx cfg.pfx ++ "/sync" ∧ (addr = "127.0.0.1" ∨ addr = "::1"))) ∧
    (accept cfg snap url addr = some none ∨ accept cfg snap url addr = none) := by
  have hc : (localAddresses.contains addr = true) ↔ (addr = "127.0.0.1" ∨ addr = "::1") := by
    constructor
    · intro h
      have hmem : addr ∈ localAddresses := List.elem_iff.mp h
      simpa [localAddresses] using hmem
    · intro h
      rcases h with h | h <;> subst h <;> decide
  simp only [accept, hmiss]
  by_cases hcond : url = normPfx cfg.pfx ++ "/sync" ∧ localAddresses.contains addr = true
  · rw [if_pos hcond]
    exact ⟨⟨fun _ => ⟨hcond.1, hc.mp hcond.2⟩, fun _ => rfl⟩, Or.inl rfl⟩
  · rw [if_neg hcond]
    refine ⟨⟨fun h => absurd h (by simp), fun h => absurd ⟨h.1, hc.mpr h.2⟩ hcond⟩, Or.inr rfl⟩

/-- C3, witness: the amended characterization at a concrete rebuild hit. -/
theorem c3_sync_trigger_witness : accept exCfg [] "/sync" "::1" = some none :=
  (c3_sync_trigger_amended exCfg [] "/sync" "::1" (by decide)).1.mpr (by decide)

/-! ## C5 — conditional requests, and C6 — content negotiation -/

/-- The representation the 200 path serves (derived from static.js:326-343,
for stating theorems): negotiation runs only when a compressed representation
exists, otherwise the identity bytes are served. -/
def negotiatedBytes (d : RepData) (ae : Option String) : Option Bytes :=
  if d.br.isSome ∨ d.gzip.isSome then dataGet d (bestSupportedEncoding ae)
  else some d.identity

/-- C5: for a content entry and a GET or HEAD request, a present, non-empty
`If-None-Match` exactly equal to the entry's validator yields a 304 with the
validator header present and an empty body; an absent or differing value
(wildcards and lists get no special treatment — only exact equality matters)
yields a 200 carrying the full negotiated content for GET (and an empty body
for HEAD). -/
theorem c5_conditional_request (st : Headers) (e : Entry) (d : RepData) (req : Request)
    (hdata : e.data = some d)
    (hm : asciiLower req.method = "get" ∨ asciiLower req.method = "head")
    (hwf : (akeys e.headers).Nodup)
    (hreps : (d.gzip = none ∧ d.br = none) ∨ (d.gzip.isSome ∧ d.br.isSome)) :
    (∀ v, req.ifNoneMatch = some v → ¬ v = "" → aget e.headers "ETag" = some v →
      handle st e req = some (⟨304, aassign st e.headers, []⟩, aassign st e.headers) ∧
      aget (aassign st e.headers) "ETag" = some v) ∧
    ((∀ v, req.ifNoneMatch = some v → v = "" ∨ ¬ aget e.headers "ETag" = some v) →
      ∃ resp st2, handle st e req = some (resp, st2) ∧ resp.status = 200 ∧
        (asciiLower req.method = "get" → some resp.body = negotiatedBytes d req.acceptEncoding) ∧
        (asciiLower req.method = "head" → resp.body = [])) := by
  have hnm : ¬ (¬ asciiLower req.method = "head" ∧ ¬ asciiLower req.method = "get") := by
    rcases hm with h | h <;> simp [h]
  constructor
  · intro v hinm hne hetag
    have hcm : condMatch e req = true := by
      simp [condMatch, hinm, hne, hetag]
    constructor
    · simp only [handle]
      rw [if_neg hnm, hdata]
      simp only [hcm, if_true]
    · exact aget_aassign_of_some e.headers "ETag" v hwf hetag st
  · intro hmis
    have hcm : condMatch e req = false := by
      cases hq : req.ifNoneMatch with
      | none => simp [condMatch, hq]
      | some v =>
        rcases hmis v hq with h | h <;> simp [condMatch, hq, h]
    simp only [handle]
    rw [if_neg hnm, hdata]
    simp only [hcm, Bool.false_eq_true, if_false]
    rcases hreps with ⟨hg, hb⟩ | ⟨hgs, hbs⟩
    · refine ⟨_, _, by rw [if_neg (by simp [hg, hb])], rfl, ?_, ?_⟩
      · intro hget
        simp [negotiatedBytes, hg, hb, hget]
      · intro hhead
        have : ¬ asciiLower req.method = "get" := by
          rw [hhead]; decide
        simp [this]
    · have hcond : d.br.isSome ∨ d.gzip.isSome := Or.inl hbs
      rw [if_pos hcond]
      cases henc : bestSupportedEncoding req.acceptEncoding with
      | identity =>
        rw [if_neg (by simp)]
        refine ⟨_, _, rfl, rfl, ?_, ?_⟩
        · intro hget
          simp [negotiatedBytes, hcond, henc, dataGet, hget]
        · intro hhead
          have : ¬ asciiLower req.method = "get" := by
            rw [hhead]; decide
          simp [this]
      | gzip =>
        obtain ⟨gb, hgb⟩ := Option.isSome_iff_exists.mp hgs
        rw [if_pos (by simp)]
        simp only [dataGet, hgb]
        refine ⟨_, _, rfl, rfl, ?_, ?_⟩
        · intro hget
          simp [negotiatedBytes, hcond, henc, dataGet, hgb, hget]
        · intro hhead
          have : ¬ asciiLower req.method = "get" := by
            rw [hhead]; decide
          simp [this]
      | brotli =>
        obtain ⟨bb, hbb⟩ := Option.isSome_iff_exists.mp hbs
        rw [if_pos (by simp)]
        simp only [dataGet, hbb]
        refine ⟨_, _, rfl, rfl, ?_, ?_⟩
        · intro hget
          simp [negotiatedBytes, hcond, henc, dataGet, hbb, hget]
        · intro hhead
          have : ¬ asciiLower req.method = "get" := by
            rw [hhead]; decide
          simp [this]

/-- C5, witness: a concrete matching conditional request answers 304 with the
validator echoed. -/
theorem c5_conditional_request_witness :
    handle defaultHeaders ⟨[("ETag", "t1"), ("Content-Type", "text/plain")], some ⟨[1, 2], none, none⟩⟩
        ⟨"/x", "GET", some "t1", none⟩ =
      some (⟨304, aassign defaultHeaders [("ETag", "t1"), ("Content-Type", "text/plain")], []⟩,
        aassign defaultHeaders [("ETag", "t1"), ("Content-Type", "text/plain")]) :=
  ((c5_conditional_request defaultHeaders
    ⟨[("ETag", "t1"), ("Content-Type", "text/plain")], some ⟨[1, 2], none, none⟩⟩
    ⟨[1, 2], none, none⟩ ⟨"/x", "GET", some "t1", none⟩ rfl (Or.inl rfl) (by decide)
    (Or.inl ⟨rfl, rfl⟩)).1 "t1" rfl (by decide) rfl).1

/-- C6: for a content entry that stores compressed representations (both
brotli and gzip present, as built by a successful compile of a compressible
type) and a GET/HEAD request that is not answered 304, the chosen encoding
follows `bestSupportedEncoding`: absent/empty header ⇒ identity, exactly `*`
(after trimming) ⇒ brotli (present by hypothesis), otherwise the header split
on commas with parameter suffixes stripped and elements trimmed, preferring
`br` then `gzip` then identity; the 200 response's Content-Length is the
chosen representation's byte length, and Content-Encoding is present exactly
when the choice is not identity (the merged bundle and the entry carrying no
prior Content-Encoding). -/
theorem c6_encoding_negotiation (st : Headers) (e : Entry) (d : RepData) (bb gb : Bytes)
    (req : Request)
    (hdata : e.data = some d) (hbr : d.br = some bb) (hgz : d.gzip = some gb)
    (hm : asciiLower req.method = "get" ∨ asciiLower req.method = "head")
    (hcm : condMatch e req = false)
    (hst : aget st "Content-Encoding" = none)
    (heh : aget e.headers "Content-Encoding" = none) :
    (bestSupportedEncoding none = .identity) ∧
    (∀ s : String, trimChars s.data = [] → bestSupportedEncoding (some s) = .identity) ∧
    (∀ s : String, trimChars s.data = ['*'] → bestSupportedEncoding (some s) = .brotli) ∧
    (∀ s : String, ¬ trimChars s.data = [] → ¬ trimChars s.data = ['*'] →
      bestSupportedEncoding (some s) =
        (if ((splitComma (trimChars s.data)).map
              (fun it => trimChars (dropSemiSuffix it))).contains ("br".data) then .brotli
         else if ((splitComma (trimChars s.data)).map
              (fun it => trimChars (dropSemiSuffix it))).contains ("gzip".data) then .gzip
         else .identity)) ∧
    (∃ resp st2, handle st e req = some (resp, st2) ∧ resp.status = 200 ∧
      aget resp.headers "Content-Length" =
        some (Nat.repr (((dataGet d (bestSupportedEncoding req.acceptEncoding)).getD []).length)) ∧
      (bestSupportedEncoding req.acceptEncoding = .identity →
        aget resp.headers "Content-Encoding" = none) ∧
      (¬ bestSupportedEncoding req.acceptEncoding = .identity →
        aget resp.headers "Content-Encoding" =
          some (encodingName (bestSupportedEncoding req.acceptEncoding)))) := by
  have hnm : ¬ (¬ asciiLower req.method = "head" ∧ ¬ asciiLower req.method = "get") := by
    rcases hm with h | h <;> simp [h]
  refine ⟨rfl, ?_, ?_, ?_, ?_⟩
  · intro s hs
    simp [bestSupportedEncoding, hs]
  · intro s hs
    simp [bestSupportedEncoding, hs]
  · intro s hs1 hs2
    simp [bestSupportedEncoding, hs1, hs2]
  · have hmerged : aget (aassign st e.headers) "Content-Encoding" = none := by
      rw [aget_aassign_of_none _ _ _ heh]
      exact hst
    simp only [handle]
    rw [if_neg hnm, hdata]
    simp only [hcm, Bool.false_eq_true, if_false]
    rw [if_pos (Or.inl (hbr ▸ rfl))]
    cases henc : bestSupportedEncoding req.acceptEncoding with
    | identity =>
      rw [if_neg (by simp)]
      refine ⟨_, _, rfl, rfl, ?_, ?_, ?_⟩
      · rw [aget_aset_self]
        simp [dataGet]
      · intro _
        rw [aget_aset_ne _ _ _ _ (by decide)]
        exact hmerged
      · intro h
        exact absurd rfl h
    | gzip =>
      rw [if_pos (by simp)]
      simp only [dataGet, hgz]
      refine ⟨_, _, rfl, rfl, ?_, ?_, ?_⟩
      · rw [aget_aset_self]
        rfl
      · intro h
        exact absurd h (by simp)
      · intro _
        rw [aget_aset_ne _ _ _ _ (by decide), aget_aset_self]
    | brotli =>
      rw [if_pos (by simp)]
      simp only [dataGet, hbr]
      refine ⟨_, _, rfl, rfl, ?_, ?_, ?_⟩
      · rw [aget_aset_self]
        rfl
      · intro h
        exact absurd h (by simp)
      · intro _
        rw [aget_aset_ne _ _ _ _ (by decide), aget_aset_self]

/-- C6, witness: the negotiation cases at concrete inputs, through the
theorem applied to a concrete compressed entry and request. -/
theorem c6_encoding_negotiation_witness :
    bestSupportedEncoding (some " gzip;q=1.0, br ") = .brotli ∧
    bestSupportedEncoding (some "*") = .brotli ∧
    bestSupportedEncoding (some "identity") = .identity ∧
    bestSupportedEncoding none = .identity := by
  have h := c6_encoding_negotiation defaultHeaders
    ⟨[("ETag", "t2"), ("Content-Type", "text/plain")], some ⟨[1], some [2], some [3]⟩⟩
    ⟨[1], some [2], some [3]⟩ [3] [2] ⟨"/x", "GET", none, some "gzip"⟩
    rfl rfl rfl (Or.inl rfl) (by decide) (by decide) (by decide)
  exact ⟨by decide, by decide, by decide, h.1⟩

/-! ## C10 — the representation-set invariant, and C7 — sync atomicity -/

/-- The compression primitives report no errors (the spec's scoping: the raw
zlib operations are assumed-reliable library calls). -/
def envTotal (env : Env) : Prop :=
  (∀ b, (env.gzipC b).isSome) ∧ (∀ b t, (env.brotC b t).isSome)

/-- The per-entry invariant: a content entry stores gzip and brotli together
or not at all. -/
def bothOrNeither (e : Entry) : Prop :=
  ∀ d, e.data = some d → (d.gzip.isSome ∧ d.br.isSome) ∨ (d.gzip = none ∧ d.br = none)

theorem compileFile_bothOrNeither (cfg : Config) (env : Env) (p : String) (t : FileType)
    (k : String) (e : Entry) (henv : envTotal env)
    (hok : compileFile cfg env p t = .ok (k, e)) : bothOrNeither e := by
  cases hrf : env.readFile p with
  | error err =>
    simp only [compileFile, hrf] at hok
    exact Except.noConfusion hok
  | ok u =>
    simp only [compileFile, hrf, Except.ok.injEq, Prod.mk.injEq] at hok
    intro d hd
    rw [← hok.2] at hd
    simp only [Entry.data] at hd
    cases hc : t.compress with
    | true =>
      rw [hc] at hd
      simp only [if_true] at hd
      rw [← Option.some_injective _ hd]
      exact Or.inl ⟨henv.1 u, henv.2 u (isText t.headers)⟩
    | false =>
      rw [hc] at hd
      simp only [Bool.false_eq_true, if_false] at hd
      rw [← Option.some_injective _ hd]
      exact Or.inr ⟨rfl, rfl⟩

theorem syncFold_bothOrNeither (cfg : Config) (env : Env) (henv : envTotal env) :
    ∀ (items : List Item) (acc snap : Snapshot),
      (∀ p e, aget acc p = some e → bothOrNeither e) →
      List.foldlM (syncStep cfg env) acc items = .ok snap →
      ∀ p e, aget snap p = some e → bothOrNeither e := by
  intro items
  induction items with
  | nil =>
    intro acc snap hacc hfold
    have : acc = snap := by
      have h := hfold
      simp only [List.foldlM, pure, Except.pure, Except.ok.injEq] at h
      exact h
    exact this ▸ hacc
  | cons it rest ih =>
    intro acc snap hacc hfold
    rw [List.foldlM_cons] at hfold
    cases hstep : syncStep cfg env acc it with
    | error err =>
      rw [hstep] at hfold
      exact Except.noConfusion hfold
    | ok acc' =>
      rw [hstep] at hfold
      refine ih acc' snap ?_ hfold
      cases it with
      | dir q =>
        simp only [syncStep, Except.ok.injEq] at hstep
        intro p e hget
        rw [← hstep] at hget
        rcases aget_aset_cases acc _ p _ e hget with ⟨_, he⟩ | hold
        · intro d hd
          rw [he] at hd
          simp only [compileDir, Entry.data] at hd
          exact Option.noConfusion hd
        · exact hacc p e hold
      | file q t =>
        cases hcf : compileFile cfg env q t with
        | error err =>
          simp only [syncStep, hcf] at hstep
          exact Except.noConfusion hstep
        | ok ke =>
          simp only [syncStep, hcf, Except.ok.injEq] at hstep
          intro p e hget
          rw [← hstep] at hget
          rcases aget_aset_cases acc _ p _ e hget with ⟨_, he⟩ | hold
          · exact he ▸ compileFile_bothOrNeither cfg env q t ke.1 ke.2 henv hcf
          · exact hacc p e hold

/-- C10: with reliable compression primitives, a compiled content entry of a
compressible type stores all three representations and a non-compressible one
only the identity; in any snapshot a successful sync publishes, no entry
holds gzip without brotli or brotli without gzip — so the brotli
representation chosen for `Accept-Encoding: *` is present whenever
negotiation runs (some compressed representation exists). -/
theorem c10_representation_invariant :
    (∀ cfg env p t k e, envTotal env → compileFile cfg env p t = .ok (k, e) →
      ∃ d, e.data = some d ∧
        (t.compress = true → d.gzip.isSome ∧ d.br.isSome) ∧
        (t.compress = false → d.gzip = none ∧ d.br = none)) ∧
    (∀ cfg env wr snap, envTotal env → syncBuild cfg env wr = .ok snap →
      ∀ p e, aget snap p = some e → ∀ d, e.data = some d →
        ((d.gzip.isSome ∧ d.br.isSome) ∨ (d.gzip = none ∧ d.br = none)) ∧
        (d.br.isSome ∨ d.gzip.isSome →
          (dataGet d (bestSupportedEncoding (some "*"))).isSome)) := by
  constructor
  · intro cfg env p t k e henv hok
    cases hrf : env.readFile p with
    | error err =>
      simp only [compileFile, hrf] at hok
      exact Except.noConfusion hok
    | ok u =>
      simp only [compileFile, hrf, Except.ok.injEq, Prod.mk.injEq] at hok
      refine ⟨(if t.compress = true then ⟨u, env.gzipC u, env.brotC u (isText t.headers)⟩
        else ⟨u, none, none⟩ : RepData), ?_, ?_, ?_⟩
      · rw [← hok.2]
      · intro hc
        simp only [hc, if_true]
        exact ⟨henv.1 u, henv.2 u (isText t.headers)⟩
      · intro hc
        simp [hc]
  · intro cfg env wr snap henv hok p e hget d hd
    have hstar : bestSupportedEncoding (some "*") = .brotli := by decide
    cases wr with
    | error err =>
      simp only [syncBuild] at hok
      exact Except.noConfusion hok
    | ok items =>
      simp only [syncBuild] at hok
      have hinv := syncFold_bothOrNeither cfg env henv (Item.dir cfg.root :: items) [] snap
        (by intro p' e' h; exact absurd h (by simp [aget])) hok p e hget
      refine ⟨hinv d hd, ?_⟩
      intro hsome
      rcases hinv d hd with ⟨hgs, hbs⟩ | ⟨hgn, hbn⟩
      · rw [hstar]
        simpa [dataGet] using hbs
      · rcases hsome with h | h
        · rw [hbn] at h
          exact absurd h (by simp)
        · rw [hgn] at h
          exact absurd h (by simp)

/-- C10, witness: the snapshot invariant evaluated on the concrete build
(`a.txt` is compressible: all three representations are present). -/
theorem c10_representation_invariant_witness :
    (((aget snapEx "/a.txt").getD emptyEntry).data.getD ⟨[], none, none⟩).gzip.isSome ∧
    (((aget snapEx "/a.txt").getD emptyEntry).data.getD ⟨[], none, none⟩).br.isSome := by
  have h := (c10_representation_invariant.2 exCfg exEnv (.ok exItems) snapEx
    ⟨fun _ => rfl, fun _ _ => rfl⟩ (by decide) "/a.txt"
    ((aget snapEx "/a.txt").getD emptyEntry) (by decide)
    (((aget snapEx "/a.txt").getD emptyEntry).data.getD ⟨[], none, none⟩) (by decide)).1
  rcases h with ⟨hg, hb⟩ | ⟨hg, hb⟩
  · exact ⟨hg, hb⟩
  · exact absurd hg (by decide)

theorem compileFile_isOk (cfg : Config) (env : Env) (p : String) (t : FileType) :
    (compileFile cfg env p t).isOk = (env.readFile p).isOk := by
  cases hrf : env.readFile p with
  | error err => simp [compileFile, hrf, Except.isOk, Except.toBool]
  | ok u => simp [compileFile, hrf, Except.isOk, Except.toBool]

theorem syncFold_error_of_read_error (cfg : Config) (env : Env) :
    ∀ (items : List Item) (acc : Snapshot),
      (∃ p t, Item.file p t ∈ items ∧ (env.readFile p).isOk = false) →
      (List.foldlM (syncStep cfg env) acc items).isOk = false := by
  intro items
  induction items with
  | nil =>
    intro acc h
    obtain ⟨p, t, hmem, _⟩ := h
    exact absurd hmem (by simp)
  | cons it rest ih =>
    intro acc h
    obtain ⟨p, t, hmem, herr⟩ := h
    rw [List.foldlM_cons]
    rcases List.mem_cons.mp hmem with hhead | htail
    · subst hhead
      have : (compileFile cfg env p t).isOk = false := by
        rw [compileFile_isOk]; exact herr
      cases hcf : compileFile cfg env p t with
      | error err => simp [syncStep, hcf, Except.isOk, Except.toBool, Bind.bind, Except.bind]
      | ok ke => rw [hcf] at this; simp [Except.isOk, Except.toBool] at this
    · cases hstep : syncStep cfg env acc it with
      | error err => simp [hstep, Except.isOk, Except.toBool, Bind.bind, Except.bind]
      | ok acc' =>
        have := ih acc' ⟨p, t, htail, herr⟩
        simpa [hstep] using this

/-- C7, amended: a sync builds the replacement snapshot from the walk and the
filesystem alone; if the walk or any file read fails the build returns that
error and the active snapshot reference is left exactly as it was, and only a
fully built snapshot is ever installed.  A *compression* failure, however,
does not abort the sync: the source's zlib wrappers resolve `undefined` on a
callback error, so the entry is published with that representation absent
(see the counterexample). -/
theorem c7_sync_atomicity_amended :
    (∀ cfg env wr act err, syncBuild cfg env wr = .error err →
      afterSync act (syncBuild cfg env wr) = act) ∧
    (∀ cfg env wr act snap, syncBuild cfg env wr = .ok snap →
      afterSync act (syncBuild cfg env wr) = snap) ∧
    (∀ cfg env err act, afterSync act (syncBuild cfg env (.error err)) = act) ∧
    (∀ cfg env items, (∃ p t, Item.file p t ∈ items ∧ (env.readFile p).isOk = false) →
      (syncBuild cfg env (.ok items)).isOk = false) := by
  refine ⟨?_, ?_, ?_, ?_⟩
  · intro cfg env wr act err h
    rw [h]
    rfl
  · intro cfg env wr act snap h
    rw [h]
    rfl
  · intro cfg env err act
    rfl
  · intro cfg env items h
    obtain ⟨p, t, hmem, herr⟩ := h
    simp only [syncBuild]
    exact syncFold_error_of_read_error cfg env (Item.dir cfg.root :: items) []
      ⟨p, t, List.mem_cons_of_mem _ hmem, herr⟩

/-- The environment of the C7 counterexample: reads succeed but gzip reports
an error (the callback's `err` is discarded and `undefined` stored). -/
def envGzFail : Env where
  readFile := fun _ => .ok [97]
  gzipC := fun _ => none
  brotC := fun _ _ => some [3]

def txtType : FileType :=
  ⟨[("Content-Type", "text/plain"), ("Cache-Control", "public,max-age=86400,must-revalidate")], true⟩

/-- C7, counterexample: with a failing gzip step, the sync does *not* return
the error — it succeeds and atomically installs a snapshot whose `a.txt`
entry lacks the gzip representation, so the active snapshot reference
changes.  The claim's "if any … compression step fails, the sync returns the
error and the active snapshot reference is exactly what it was" is false on
the code. -/
theorem c7_sync_atomicity_counterexample :
    envGzFail.gzipC [97] = none ∧
    (syncBuild exCfg envGzFail (.ok [Item.file "www/a.txt" txtType])).isOk = true ∧
    ¬ afterSync [] (syncBuild exCfg envGzFail (.ok [Item.file "www/a.txt" txtType])) = [] ∧
    ((aget (afterSync [] (syncBuild exCfg envGzFail (.ok [Item.file "www/a.txt" txtType])))
        "/a.txt").map (fun e => e.data.map (fun d => (d.gzip, d.br)))) =
      some (some (none, some [3])) := by
  refine ⟨rfl, by decide, by decide, by decide⟩

/-- C7, witness: the amended abort behaviour at a concrete failing read. -/
theorem c7_sync_atomicity_witness :
    (syncBuild exCfg exEnv (.ok [Item.file "www/missing.txt" txtType])).isOk = false :=
  c7_sync_atomicity_amended.2.2.2 exCfg exEnv [Item.file "www/missing.txt" txtType]
    ⟨"www/missing.txt", txtType, by decide, by decide⟩

/-! ## C1 and C2 — mutation of the shared default header bundle

`Object.assign(defaultHeaders, found.headers)` (static.js:314) merges *into*
the module-level `defaultHeaders` object, and lines 329-330 write
`Content-Encoding`/`Content-Length` into that same object, so headers written
for one response leak into every later response.  The chain below serves the
non-compressible `/1px.jpg`, then the compressible `/a.txt` with
`Accept-Encoding: gzip`, then `/1px.jpg` again with the identical request. -/

def eJpg : Entry := (aget snapEx "/1px.jpg").getD emptyEntry
def eTxt : Entry := (aget snapEx "/a.txt").getD emptyEntry

def reqJpgGzip : Request := ⟨"/1px.jpg", "HEAD", none, some "gzip"⟩
def reqTxtGzip : Request := ⟨"/a.txt", "GET", none, some "gzip"⟩

def hres1 : Response × Headers := (handle defaultHeaders eJpg reqJpgGzip).getD (⟨0, [], []⟩, [])
def hres2 : Response × Headers := (handle hres1.2 eTxt reqTxtGzip).getD (⟨0, [], []⟩, [])
def hres3 : Response × Headers := (handle hres2.2 eJpg reqJpgGzip).getD (⟨0, [], []⟩, [])

/-- C1: failing evaluation.  Two identical requests to the same published
content entry (`HEAD /1px.jpg`, `Accept-Encoding: gzip`) receive different
headers when a request to another entry was served in between: the first
response has no Content-Encoding, the second carries the `gzip` value left in
the mutated default bundle, which is no longer the fixed `defaultHeaders`. -/
theorem c1_default_bundle_mutation :
    accept exCfg snapEx "/1px.jpg" "10.0.0.5" = some (some eJpg) ∧
    (handle defaultHeaders eJpg reqJpgGzip).isSome = true ∧
    (handle hres1.2 eTxt reqTxtGzip).isSome = true ∧
    (handle hres2.2 eJpg reqJpgGzip).isSome = true ∧
    hres1.1.status = 200 ∧ hres3.1.status = 200 ∧
    aget hres1.1.headers "Content-Encoding" = none ∧
    aget hres3.1.headers "Content-Encoding" = some "gzip" ∧
    ¬ hres3.1.headers = hres1.1.headers ∧
    ¬ hres2.2 = defaultHeaders := by
  refine ⟨by decide, by decide, by decide, by decide, by decide, by decide, by decide,
    by decide, by decide, by decide⟩

/-- C2: failing evaluation.  `/1px.jpg` has a non-compressible descriptor and
an identity-only representation set, yet after an earlier gzip-encoded
response its 200 response carries `Content-Encoding: gzip` — the stale value
in the shared bundle.  The repository's own test (`HEAD request to an image
file` with `Accept-Encoding: gzip` inside the gzip section, expecting no
content-encoding) pins the claimed behaviour. -/
theorem c2_noncompressible_encoding_leak :
    (aget allowedTypes "jpg").map FileType.compress = some false ∧
    aget eJpg.headers "Content-Type" = some "image/jpeg" ∧
    eJpg.data.map (fun d => (d.gzip, d.br)) = some (none, none) ∧
    hres3.1.status = 200 ∧
    aget hres3.1.headers "Content-Encoding" = some "gzip" := by
  refine ⟨by decide, by decide, by decide, by decide, by decide⟩

end StaticHandler
